import Mathlib

/-!
Verification of the newsmon Selection & Delivery Engine.

Shallow embedding of the Python sources:
  * `src/dedupe.py`   — `is_recent`, `filter_recent_items`, `select_new_items`,
                        `update_state_gist`
  * `src/main.py`     — `apply_rules` and the delivery / state-commit phase of `main`
  * `src/telegram_msg.py` — `send_message_with_backoff`

Timestamps (`datetime` values) are modelled as `Int` seconds; a Python value
`published` that may be a `datetime` or `None` becomes `Option Int`.
The persisted gist snapshot (`Dict[str, List[str]]`, insertion ordered)
becomes an association list `List (String × List String)`.
-/

namespace Newsmon

/-- Per-feed allow/deny keyword rules (the `rules` mapping attached to items). -/
structure Rules where
  allow : Option (List String)
  deny : Option (List String)
deriving DecidableEq

/-- A normalized feed item as produced by `normalize_feed` (src/parse.py):
all keys are present; `id`, `published` and `summary` may be `None`. -/
structure Item where
  feed_url : String
  title : String
  link : Option String
  id : Option String
  published : Option Int
  summary : Option String
  rules : Option Rules
deriving DecidableEq

/-- The persisted state: a mapping `feed_url ↦ list of already-sent titles`,
in insertion order (Python dict). -/
abbrev Snapshot := List (String × List String)

end Newsmon

deriving instance DecidableEq for Except

namespace Newsmon

/-- Python `past_items.get(feed_url, [])` — first entry wins, default empty list. -/
def lookupPast (past : Snapshot) (feed : String) : List String :=
  ((past.find? (fun p => p.1 == feed)).map Prod.snd).getD []

/-! ## Age filter (src/dedupe.py, `is_recent` / `filter_recent_items`) -/

/-- Seconds in a day; `timedelta(days=days)` is `days * 86400` seconds. -/
def secondsPerDay : Int := 86400

/-- Function `is_recent` (src/dedupe.py lines 9–19).  The Python function reads
"now" from the wall clock; here it is an explicit argument.
`if not item.get("published")` is a `None` test (a `datetime` is never falsy).
-/
def is_recent (item : Item) (now : Int) (days : Int) : Bool :=
  match item.published with
  | none => true
  | some t => decide (now - days * secondsPerDay ≤ t)

/-- Function `filter_recent_items` (src/dedupe.py lines 21–29). -/
def filter_recent_items (items : List Item) (now : Int) (max_age_days : Int) : List Item :=
  items.filter (fun item => is_recent item now max_age_days)

/-! ## Rule filter (src/main.py, `apply_rules`, lines 14–41) -/

/-- Python `str.lower()` on the character sequence. -/
def lowerStr (s : List Char) : List Char := s.map Char.toLower

/-- The search text: `(title or "").lower() + " " + (summary or "").lower()`.
In the embedding `title` is a required string, `summary` optional. -/
def ruleText (i : Item) : List Char :=
  lowerStr i.title.data ++ [' '] ++ lowerStr ((i.summary.getD "").data)

/-- Python `str(tok).lower() in text` — case-folded substring test. -/
def tokMatch (text : List Char) (tok : String) : Bool :=
  decide (lowerStr tok.data <:+: text)

/-- Python `rules.get("allow")` after `rules = item.get("rules", {}) or {}`. -/
def allowToks (i : Item) : Option (List String) := (i.rules.getD ⟨none, none⟩).allow

/-- Python `rules.get("deny")` after `rules = item.get("rules", {}) or {}`. -/
def denyToks (i : Item) : Option (List String) := (i.rules.getD ⟨none, none⟩).deny

/-- The per-item pass/fail decision of `apply_rules`:
`if allow:` skips the allow check for an absent or empty list (both are
falsy); `if deny:` likewise for deny. -/
def passesRules (i : Item) : Bool :=
  let text := ruleText i
  let allowOk :=
    match allowToks i with
    | none => true
    | some toks => toks.isEmpty || toks.any (fun tok => tokMatch text tok)
  let denyOk :=
    match denyToks i with
    | none => true
    | some toks => !(toks.any (fun tok => tokMatch text tok))
  allowOk && denyOk

/-- Function `apply_rules` (src/main.py lines 14–41): keep items passing the rules. -/
def apply_rules (items : List Item) : List Item := items.filter passesRules

/-! ## Selection engine (src/dedupe.py, `select_new_items`, lines 31–68) -/

/-- One step of the `items_by_feed.setdefault(item["feed_url"], []).append(item)`
grouping loop: append to the existing group or create a new one at the end. -/
def addToGroups (gs : List (String × List Item)) (i : Item) : List (String × List Item) :=
  match gs with
  | [] => [(i.feed_url, [i])]
  | (k, l) :: rest =>
      if k = i.feed_url then (k, l ++ [i]) :: rest
      else (k, l) :: addToGroups rest i

/-- Group items by `feed_url`, preserving first-seen feed order and
input order inside each group (Python dict-of-lists). -/
def groupByFeed (items : List Item) : List (String × List Item) :=
  items.foldl addToGroups []

/-- Sort timestamp: the key `x["published"] or 0` of a dated item. -/
def ts (i : Item) : Int := i.published.getD 0

/-- Stable insertion of `a` into a list sorted ascending by `ts`
(placed before later items with an equal key — stability). -/
def insertSorted (a : Item) : List Item → List Item
  | [] => [a]
  | b :: rest => if ts a ≤ ts b then a :: b :: rest else b :: insertSorted a rest

/-- Stable ascending sort by `ts` (the result CPython's stable sort
produces when every key is a `datetime`). -/
def sortByTs : List Item → List Item
  | [] => []
  | a :: rest => insertSorted a (sortByTs rest)

/-- Python `feed_items.sort(key=lambda x: x["published"] or 0)`.
The key of an undated item is the `int` `0`; the key of a dated item is a
`datetime`.  CPython's sort compares every adjacent input pair while
detecting runs, so a group holding both kinds of key always raises
`TypeError` (an `int` and a `datetime` are not comparable); a group whose
keys are all `0` is left unchanged (stability with equal keys); a group of
dated items is stably sorted ascending. -/
def pySort (its : List Item) : Except String (List Item) :=
  if its.all (fun i => i.published.isNone) then .ok its
  else if its.all (fun i => i.published.isSome) then .ok (sortByTs its)
  else .error "TypeError: unsupported comparison between datetime.datetime and int"

/-- The inner item loop of `select_new_items` for one feed group with key
`k`: break once `selected` has reached `maxI`; skip items whose title is in
the snapshot for this feed; otherwise append. -/
def scanGroup (past : Snapshot) (maxI : Nat) (k : String) :
    List Item → List Item → List Item
  | [], sel => sel
  | i :: rest, sel =>
      if maxI ≤ sel.length then sel
      else if i.title ∈ lookupPast past k then scanGroup past maxI k rest sel
      else scanGroup past maxI k rest (sel ++ [i])

/-- The outer feed loop of `select_new_items`: sort the group (which can
raise), scan it, and break out of the whole loop once the cap is reached —
later groups are then never sorted or scanned. -/
def selectGo (past : Snapshot) (maxI : Nat) :
    List (String × List Item) → List Item → Except String (List Item)
  | [], sel => .ok sel
  | (k, its) :: rest, sel =>
      match pySort its with
      | .error e => .error e
      | .ok sorted =>
          let sel' := scanGroup past maxI k sorted sel
          if maxI ≤ sel'.length then .ok sel' else selectGo past maxI rest sel'

/-- Function `select_new_items` (src/dedupe.py lines 31–68). -/
def select_new_items (items : List Item) (past : Snapshot) (maxI : Nat) :
    Except String (List Item) :=
  selectGo past maxI (groupByFeed items) []

/-- An item not yet recorded in the snapshot for its own feed
(the candidates that selection may deliver). -/
def isNewB (past : Snapshot) (i : Item) : Bool :=
  decide (i.title ∉ lookupPast past i.feed_url)

/-- The candidate test as `scanGroup` performs it, against the key of the
group the item sits in. -/
def isNewKeyB (past : Snapshot) (k : String) (i : Item) : Bool :=
  decide (i.title ∉ lookupPast past k)

/-- Well-formed feed groups: every item sits in the group keyed by its own
`feed_url` (true of `groupByFeed` output). -/
def GroupsWF (gs : List (String × List Item)) : Prop :=
  ∀ p ∈ gs, ∀ i ∈ p.2, i.feed_url = p.1

/-- Total number of snapshot-new candidates across a group list. -/
def candSum (past : Snapshot) (gs : List (String × List Item)) : Nat :=
  (gs.map (fun p => p.2.countP (isNewB past))).sum

/-! ## Fingerprint (spec §3; referenced by tests/unit/test_dedupe.py but
absent from src/dedupe.py) -/

/-- The value a fingerprint is derived from, keeping the derivation
deterministic and priority-ordered. -/
inductive Fingerprint where
  | fromId : String → Fingerprint
  | fromLink : String → Fingerprint
  | fromTitleLink : String → Option String → Fingerprint
deriving DecidableEq

/-- Modelled from the spec: the `fingerprint` function the repository's unit
tests import from `src.dedupe` is missing from src; the spec derives it
"deterministically from, in priority order: `id`, else `link`, else the pair
`(title, link)`". -/
def fingerprintSpec (i : Item) : Fingerprint :=
  match i.id with
  | some s => .fromId s
  | none =>
      match i.link with
      | some l => .fromLink l
      | none => .fromTitleLink i.title i.link

/-! ## State commit (src/main.py lines 254–258; src/dedupe.py lines 90–113) -/

/-- Python `known_items.setdefault(feed, []).append(title)`: extend the first entry
for `feed`, or add a fresh entry at the end of the dict. -/
def commitAdd (known : Snapshot) (feed title : String) : Snapshot :=
  match known with
  | [] => [(feed, [title])]
  | (k, l) :: rest =>
      if k = feed then (k, l ++ [title]) :: rest
      else (k, l) :: commitAdd rest feed title

/-- One iteration of the commit loop (src/main.py lines 255–257):
append the title only when not already recorded for the feed. -/
def commitStep (known : Snapshot) (i : Item) : Snapshot :=
  if i.title ∈ lookupPast known i.feed_url then known
  else commitAdd known i.feed_url i.title

/-- The whole commit loop starting from `known_items = dict(past_items)`. -/
def commitFold (past : Snapshot) (newItems : List Item) : Snapshot :=
  newItems.foldl commitStep past

/-- Function `update_state_gist` (src/dedupe.py lines 90–113): `if not updated_data:
return` skips the write; otherwise the gist content is replaced.  Result:
the store content after the call and whether a write call was issued. -/
def update_state_gist (store : Snapshot) (updated : Snapshot) : Snapshot × Bool :=
  if updated = [] then (store, false) else (updated, true)

/-! ## Delivery phase (src/main.py lines 250–265, src/telegram_msg.py
`send_items`): sequential sends, first failure raises. -/

/-- Function `send_items` for one channel: deliver in order, stop at the first
failure.  Returns the delivered prefix and whether all sends succeeded. -/
def deliverSeq (sendOk : Item → Bool) : List Item → List Item × Bool
  | [] => ([], true)
  | i :: rest =>
      if sendOk i then
        let (d, s) := deliverSeq sendOk rest
        (i :: d, s)
      else ([], false)

/-- The `for chat, items in items_by_channel.items()` loop: a raised send
failure aborts the remaining channels. -/
def deliverRun (sendOk : Item → Bool) : List (String × List Item) → List Item × Bool
  | [] => ([], true)
  | (_, its) :: rest =>
      let (d, s) := deliverSeq sendOk its
      if s then
        let (d2, s2) := deliverRun sendOk rest
        (d ++ d2, s2)
      else (d, false)

/-- The `try:` block of src/main.py lines 250–265: send every channel group;
only after all succeed, fold the new titles into the snapshot and call
`update_state_gist`; any send failure is caught and the run returns with no
write.  Result: final external store content and whether a write was issued. -/
def step3Embed (store past : Snapshot) (newItems : List Item)
    (groups : List (String × List Item)) (sendOk : Item → Bool) : Snapshot × Bool :=
  if (deliverRun sendOk groups).2 then update_state_gist store (commitFold past newItems)
  else (store, false)

/-- src/main.py from `select_new_items` (line 212) through the commit:
an empty selection returns early ("No new items to send.") without any
write; the channel grouping of step 3 is abstracted as `groups`. -/
def runSelectionAndCommit (store past : Snapshot) (items : List Item) (maxI : Nat)
    (groups : List Item → List (String × List Item)) (sendOk : Item → Bool) :
    Except String (Snapshot × Bool) :=
  match select_new_items items past maxI with
  | .error e => .error e
  | .ok newItems =>
      if newItems = [] then .ok (store, false)
      else .ok (step3Embed store past newItems (groups newItems) sendOk)

/-! ## Telegram backoff (src/telegram_msg.py, `send_message_with_backoff`,
lines 9–49) -/

/-- The outcome of one HTTP attempt, as distinguished by the code:
success (2xx), a 429 with optional integer `Retry-After` header, any other
non-ok status (including 419), or a raised network exception. -/
inductive Response where
  | ok : Response
  | rate : Option Nat → Response
  | badStatus : Response
  | netErr : Response
deriving DecidableEq

/-- Final outcome of `send_message_with_backoff`: normal return or a raised
`RuntimeError`. -/
inductive SendResult where
  | success : SendResult
  | fatal : SendResult
deriving DecidableEq

/-- The retry loop with `retry_count = rc`: each new attempt is answered by
`resp rc` (the retry counter increments exactly once per attempt).  On a 429
the wait is the `Retry-After` hint if present, else `60 * 2 ** retry_count`;
the sleep happens only when `retry_count < max_retries`, otherwise the
`RuntimeError` is raised.  Any other failure raises at once.  The loop is
parameterized by `left = max_retries - retry_count`, the number of retries
still allowed (`retry_count < max_retries` iff `left > 0`).  Returns the
list of sleep durations in order and the outcome. -/
def sendFrom (resp : Nat → Response) : Nat → Nat → List Nat × SendResult
  | rc, left =>
    match resp rc with
    | .ok => ([], .success)
    | .badStatus => ([], .fatal)
    | .netErr => ([], .fatal)
    | .rate hint =>
        let wait := match hint with
          | some w => w
          | none => 60 * 2 ^ rc
        match left with
        | 0 => ([], .fatal)
        | l + 1 =>
            let (s, r) := sendFrom resp (rc + 1) l
            (wait :: s, r)

/-- Function `send_message_with_backoff` (src/telegram_msg.py lines 9–49), starting
with `retry_count = 0`, so with `max_retries` retries still allowed. -/
def send_message_with_backoff (resp : Nat → Response) (max_retries : Nat) :
    List Nat × SendResult :=
  sendFrom resp 0 max_retries

/-! ## Concrete items used by the witness scenarios -/

/-- An undated item of feed `f` with the given title. -/
def mkF (t : String) : Item := ⟨"f", t, none, none, none, none, none⟩

/-- An undated item of feed `g` with the given title. -/
def mkG (t : String) : Item := ⟨"g", t, none, none, none, none, none⟩

/-- A dated item of feed `g` with the given title. -/
def mkGdated (t : String) (p : Int) : Item := ⟨"g", t, none, none, some p, none, none⟩

/-- An undated item of `feedA` with the given title. -/
def mkFA (t : String) : Item := ⟨"feedA", t, none, none, none, none, none⟩

/-- An item whose text matches both its allow and its deny keyword. -/
def itemAllowDeny : Item :=
  ⟨"f", "iOS on Windows", none, none, none, none,
    some ⟨some ["ios"], some ["windows"]⟩⟩

/-- An item matching its allow keyword, with no deny list. -/
def itemAllowOnly : Item :=
  ⟨"f", "iOS News", none, none, none, none, some ⟨some ["ios"], none⟩⟩

end Newsmon

namespace Newsmon

/-! # Lemmas about the selection engine -/

/-- Stable insertion permutes cons. -/
theorem insertSorted_perm (a : Item) (l : List Item) :
    List.Perm (insertSorted a l) (a :: l) := by
  induction l with
  | nil => exact List.Perm.refl _
  | cons b rest ih =>
      unfold insertSorted
      by_cases h : ts a ≤ ts b
      · simp [h]
      · simp only [h, if_false]
        exact (ih.cons b).trans (List.Perm.swap a b rest)

/-- The stable sort is a permutation of its input. -/
theorem sortByTs_perm (l : List Item) : List.Perm (sortByTs l) l := by
  induction l with
  | nil => exact List.Perm.refl _
  | cons a rest ih =>
      exact (insertSorted_perm a (sortByTs rest)).trans (ih.cons a)

/-- A successful `pySort` returns a permutation of the group. -/
theorem pySort_perm {its sorted : List Item} (h : pySort its = .ok sorted) :
    List.Perm sorted its := by
  unfold pySort at h
  by_cases h1 : its.all (fun i => i.published.isNone)
  · simp only [h1, if_true] at h
    cases h
    exact List.Perm.refl _
  · simp only [h1, if_false] at h
    by_cases h2 : its.all (fun i => i.published.isSome)
    · simp only [h2, if_true] at h
      cases h
      exact sortByTs_perm its
    · simp [h2] at h

/-- Once the cap is reached, the inner loop scans nothing further. -/
theorem scanGroup_stop (past : Snapshot) (maxI : Nat) (k : String)
    (its sel : List Item) (h : maxI ≤ sel.length) :
    scanGroup past maxI k its sel = sel := by
  cases its with
  | nil => rfl
  | cons i rest => simp [scanGroup, h]

/-- Length of the inner loop's result: the running selection grows by the
number of snapshot-new items of the group, truncated at the cap. -/
theorem scanGroup_length (past : Snapshot) (maxI : Nat) (k : String) :
    ∀ its sel : List Item, sel.length ≤ maxI →
      (scanGroup past maxI k its sel).length =
        min maxI (sel.length + its.countP (isNewKeyB past k)) := by
  intro its
  induction its with
  | nil =>
      intro sel h
      simp [scanGroup]
      omega
  | cons i rest ih =>
      intro sel h
      by_cases h1 : maxI ≤ sel.length
      · rw [scanGroup_stop past maxI k _ sel h1]
        have hc : (0:Nat) ≤ (i :: rest).countP (isNewKeyB past k) := Nat.zero_le _
        omega
      · simp only [scanGroup, h1, if_false]
        by_cases h2 : i.title ∈ lookupPast past k
        · have hp : isNewKeyB past k i = false := by
            simp [isNewKeyB, h2]
          rw [List.countP_cons_of_neg _ _ (by simp [hp])]
          simp only [h2, if_true]
          exact ih sel h
        · have hp : isNewKeyB past k i = true := by
            simp [isNewKeyB, h2]
          simp only [h2, if_false]
          rw [List.countP_cons_of_pos _ _ (by simp [hp])]
          have hlen : (sel ++ [i]).length ≤ maxI := by
            simp
            omega
          rw [ih (sel ++ [i]) hlen]
          simp
          omega

/-- Members of the inner loop's result come from the running selection or
are group items whose title is not in the snapshot for the group key. -/
theorem scanGroup_mem (past : Snapshot) (maxI : Nat) (k : String) :
    ∀ its sel : List Item, ∀ i ∈ scanGroup past maxI k its sel,
      i ∈ sel ∨ (i ∈ its ∧ i.title ∉ lookupPast past k) := by
  intro its
  induction its with
  | nil =>
      intro sel i hi
      exact Or.inl hi
  | cons a rest ih =>
      intro sel i hi
      by_cases h1 : maxI ≤ sel.length
      · rw [scanGroup_stop past maxI k _ sel h1] at hi
        exact Or.inl hi
      · simp only [scanGroup, h1, if_false] at hi
        by_cases h2 : a.title ∈ lookupPast past k
        · simp only [h2, if_true] at hi
          rcases ih sel i hi with h | ⟨h3, h4⟩
          · exact Or.inl h
          · exact Or.inr ⟨List.mem_cons_of_mem a h3, h4⟩
        · simp only [h2, if_false] at hi
          rcases ih (sel ++ [a]) i hi with h | ⟨h3, h4⟩
          · rcases List.mem_append.1 h with h5 | h5
            · exact Or.inl h5
            · have : i = a := by simpa using h5
              subst this
              exact Or.inr ⟨List.mem_cons_self i rest, h2⟩
          · exact Or.inr ⟨List.mem_cons_of_mem a h3, h4⟩

/-- Candidate counts agree with the per-item form inside a well-keyed group. -/
theorem countP_isNewKeyB_eq (past : Snapshot) (k : String) (l : List Item)
    (h : ∀ i ∈ l, i.feed_url = k) :
    l.countP (isNewKeyB past k) = l.countP (isNewB past) := by
  apply List.countP_congr
  intro i hi
  simp [isNewKeyB, isNewB, h i hi]

/-- Length of a successful outer loop run: all candidates are taken,
truncated at the cap. -/
theorem selectGo_length (past : Snapshot) (maxI : Nat) :
    ∀ gs : List (String × List Item), ∀ sel res : List Item,
      GroupsWF gs → sel.length ≤ maxI →
      selectGo past maxI gs sel = .ok res →
      res.length = min maxI (sel.length + candSum past gs) := by
  intro gs
  induction gs with
  | nil =>
      intro sel res _ hlen h
      cases h
      simp [candSum]
      omega
  | cons g rest ih =>
      intro sel res hwf hlen h
      obtain ⟨k, its⟩ := g
      simp only [selectGo] at h
      cases hs : pySort its with
      | error e => rw [hs] at h; cases h
      | ok sorted =>
          rw [hs] at h
          simp only at h
          have hkeys : ∀ i ∈ its, i.feed_url = k := by
            intro i hi
            exact hwf (k, its) (List.mem_cons_self _ _) i hi
          have hkeys' : ∀ i ∈ sorted, i.feed_url = k := by
            intro i hi
            exact hkeys i ((pySort_perm hs).mem_iff.1 hi)
          have hscan := scanGroup_length past maxI k sorted sel hlen
          have hcnt : sorted.countP (isNewKeyB past k) = its.countP (isNewB past) := by
            rw [countP_isNewKeyB_eq past k sorted hkeys']
            exact (pySort_perm hs).countP_eq _
          by_cases hcap : maxI ≤ (scanGroup past maxI k sorted sel).length
          · simp only [hcap, if_true] at h
            cases h
            have : candSum past ((k, its) :: rest) =
                its.countP (isNewB past) + candSum past rest := by
              simp [candSum]
            rw [this]
            rw [hscan] at hcap ⊢
            rw [hcnt] at hcap ⊢
            omega
          · simp only [hcap, if_false] at h
            have hlen' : (scanGroup past maxI k sorted sel).length ≤ maxI := by
              omega
            have hwf' : GroupsWF rest := by
              intro p hp i hi
              exact hwf p (List.mem_cons_of_mem _ hp) i hi
            have := ih (scanGroup past maxI k sorted sel) res hwf' hlen' h
            rw [this, hscan, hcnt]
            have : candSum past ((k, its) :: rest) =
                its.countP (isNewB past) + candSum past rest := by
              simp [candSum]
            rw [this]
            rw [hscan, hcnt] at hcap
            omega

/-- Members of a successful outer loop run come from the initial selection
or are snapshot-new for their own feed. -/
theorem selectGo_mem (past : Snapshot) (maxI : Nat) :
    ∀ gs : List (String × List Item), ∀ sel res : List Item,
      GroupsWF gs → selectGo past maxI gs sel = .ok res →
      ∀ i ∈ res, i ∈ sel ∨ i.title ∉ lookupPast past i.feed_url := by
  intro gs
  induction gs with
  | nil =>
      intro sel res _ h i hi
      cases h
      exact Or.inl hi
  | cons g rest ih =>
      intro sel res hwf h i hi
      obtain ⟨k, its⟩ := g
      simp only [selectGo] at h
      cases hs : pySort its with
      | error e => rw [hs] at h; cases h
      | ok sorted =>
          rw [hs] at h
          simp only at h
          have hkeys' : ∀ j ∈ sorted, j.feed_url = k := by
            intro j hj
            exact hwf (k, its) (List.mem_cons_self _ _) j ((pySort_perm hs).mem_iff.1 hj)
          have hscan := scanGroup_mem past maxI k sorted sel
          by_cases hcap : maxI ≤ (scanGroup past maxI k sorted sel).length
          · simp only [hcap, if_true] at h
            cases h
            rcases hscan i hi with h1 | ⟨h1, h2⟩
            · exact Or.inl h1
            · rw [hkeys' i h1]
              exact Or.inr h2
          · simp only [hcap, if_false] at h
            have hwf' : GroupsWF rest := by
              intro p hp j hj
              exact hwf p (List.mem_cons_of_mem _ hp) j hj
            rcases ih _ res hwf' h i hi with h1 | h1
            · rcases hscan i h1 with h2 | ⟨h2, h3⟩
              · exact Or.inl h2
              · rw [hkeys' i h2]
                exact Or.inr h3
            · exact Or.inr h1

/-- Adding an item with `addToGroups` keeps groups well-keyed. -/
theorem addToGroups_wf (gs : List (String × List Item)) (i : Item)
    (h : GroupsWF gs) : GroupsWF (addToGroups gs i) := by
  induction gs with
  | nil =>
      intro p hp j hj
      simp only [addToGroups, List.mem_singleton] at hp
      subst hp
      simp only [List.mem_singleton] at hj
      subst hj
      rfl
  | cons g rest ih =>
      obtain ⟨k, l⟩ := g
      have hrest : GroupsWF rest := fun p hp j hj => h p (List.mem_cons_of_mem _ hp) j hj
      simp only [addToGroups]
      by_cases hk : k = i.feed_url
      · rw [if_pos hk]
        intro p hp j hj
        rcases List.mem_cons.1 hp with hp1 | hp1
        · subst hp1
          simp only at hj
          rcases List.mem_append.1 hj with h1 | h1
          · exact h (k, l) (List.mem_cons_self _ _) j h1
          · have hji : j = i := by simpa using h1
            subst hji
            exact hk.symm
        · exact h p (List.mem_cons_of_mem _ hp1) j hj
      · rw [if_neg hk]
        intro p hp j hj
        rcases List.mem_cons.1 hp with hp1 | hp1
        · subst hp1
          exact h (k, l) (List.mem_cons_self _ _) j hj
        · exact ih hrest p hp1 j hj

/-- The `groupByFeed` output is well-keyed. -/
theorem groupByFeed_wf (items : List Item) : GroupsWF (groupByFeed items) := by
  have main : ∀ l : List Item, ∀ gs : List (String × List Item),
      GroupsWF gs → GroupsWF (l.foldl addToGroups gs) := by
    intro l
    induction l with
    | nil => intro gs h; exact h
    | cons a rest ih =>
        intro gs h
        exact ih (addToGroups gs a) (addToGroups_wf gs a h)
  exact main items [] (fun p hp => absurd hp (List.not_mem_nil p))

/-- Flattening `addToGroups` adds the item at the level of multisets. -/
theorem addToGroups_join_perm (gs : List (String × List Item)) (i : Item) :
    List.Perm (((addToGroups gs i).map Prod.snd).flatten)
      (((gs.map Prod.snd).flatten) ++ [i]) := by
  induction gs with
  | nil => simp [addToGroups]
  | cons g rest ih =>
      obtain ⟨k, l⟩ := g
      simp only [addToGroups]
      by_cases hk : k = i.feed_url
      · rw [if_pos hk]
        simp only [List.map_cons, List.flatten_cons]
        rw [List.append_assoc, List.append_assoc]
        exact List.Perm.append_left l (List.perm_append_comm)
      · rw [if_neg hk]
        simp only [List.map_cons, List.flatten_cons]
        rw [List.append_assoc]
        exact List.Perm.append_left l ih

/-- The feed grouping is a permutation of the input items. -/
theorem groupByFeed_join_perm (items : List Item) :
    List.Perm (((groupByFeed items).map Prod.snd).flatten) items := by
  have main : ∀ l : List Item, ∀ gs : List (String × List Item),
      List.Perm (((l.foldl addToGroups gs).map Prod.snd).flatten)
        (((gs.map Prod.snd).flatten) ++ l) := by
    intro l
    induction l with
    | nil => intro gs; simp
    | cons a rest ih =>
        intro gs
        have h1 := ih (addToGroups gs a)
        have h2 : List.Perm ((((addToGroups gs a).map Prod.snd).flatten) ++ rest)
            ((((gs.map Prod.snd).flatten) ++ [a]) ++ rest) :=
          (addToGroups_join_perm gs a).append_right rest
        have h3 := h1.trans h2
        simpa using h3
  simpa using main items []

/-- A successful selection takes `min maxI (number of candidates)` items:
grouping and sorting permute the input, so the candidate count over the
groups is the candidate count over the input. -/
theorem select_new_items_length {items : List Item} {past : Snapshot}
    {maxI : Nat} {res : List Item}
    (h : select_new_items items past maxI = .ok res) :
    res.length = min maxI (items.countP (isNewB past)) := by
  have h1 := selectGo_length past maxI (groupByFeed items) [] res
    (groupByFeed_wf items) (by simp) h
  have h2 : candSum past (groupByFeed items) = items.countP (isNewB past) := by
    unfold candSum
    have h3 : (groupByFeed items).map (fun p => p.2.countP (isNewB past)) =
        ((groupByFeed items).map Prod.snd).map (List.countP (isNewB past)) := by
      rw [List.map_map]
      rfl
    rw [h3, ← List.countP_flatten]
    exact (groupByFeed_join_perm items).countP_eq _
  rw [h1, h2]
  simp

/-- No selected item carries a `(feed_url, title)` pair recorded in the
snapshot as read at the start of the call. -/
theorem select_new_items_not_past {items : List Item} {past : Snapshot}
    {maxI : Nat} {res : List Item}
    (h : select_new_items items past maxI = .ok res) :
    ∀ i ∈ res, i.title ∉ lookupPast past i.feed_url := by
  intro i hi
  rcases selectGo_mem past maxI (groupByFeed items) [] res
      (groupByFeed_wf items) h i hi with h1 | h1
  · cases h1
  · exact h1

/-! # Lemmas about the commit fold -/

/-- Appending a title extends the entry of that feed. -/
theorem lookupPast_commitAdd_self (s : Snapshot) (f t : String) :
    lookupPast (commitAdd s f t) f = lookupPast s f ++ [t] := by
  induction s with
  | nil => simp [commitAdd, lookupPast]
  | cons p rest ih =>
      obtain ⟨k, l⟩ := p
      by_cases hk : k = f
      · subst hk
        simp [commitAdd, lookupPast]
      · have hb : (k == f) = false := by
          simp [hk]
        simp only [commitAdd, if_neg hk]
        simp only [lookupPast, List.find?_cons, hb]
        exact ih

/-- Appending a title leaves every other feed's entry unchanged. -/
theorem lookupPast_commitAdd_other (s : Snapshot) (f t g : String) (h : g ≠ f) :
    lookupPast (commitAdd s f t) g = lookupPast s g := by
  induction s with
  | nil =>
      have hb : (f == g) = false := by
        simp
        exact fun e => h e.symm
      simp [commitAdd, lookupPast, hb]
  | cons p rest ih =>
      obtain ⟨k, l⟩ := p
      by_cases hk : k = f
      · have hkg : k ≠ g := by
          intro e
          apply h
          rw [← e, hk]
        have hb : (k == g) = false := by
          simp [hkg]
        simp only [commitAdd, if_pos hk]
        simp [lookupPast, List.find?_cons, hb]
      · simp only [commitAdd, if_neg hk]
        simp only [lookupPast, List.find?_cons]
        cases hb : (k == g) with
        | true => simp
        | false => exact ih

/-- One commit step never shrinks a feed's entry. -/
theorem lookupPast_commitStep_len (s : Snapshot) (i : Item) (f : String) :
    (lookupPast s f).length ≤ (lookupPast (commitStep s i) f).length := by
  unfold commitStep
  by_cases hm : i.title ∈ lookupPast s i.feed_url
  · rw [if_pos hm]
  · rw [if_neg hm]
    by_cases hf : f = i.feed_url
    · subst hf
      rw [lookupPast_commitAdd_self]
      simp
    · rw [lookupPast_commitAdd_other s i.feed_url i.title f hf]

/-- The whole commit fold never shrinks a feed's entry. -/
theorem lookupPast_commitFold_len (l : List Item) :
    ∀ s : Snapshot, ∀ f : String,
      (lookupPast s f).length ≤ (lookupPast (commitFold s l) f).length := by
  induction l with
  | nil => intro s f; simp [commitFold]
  | cons i rest ih =>
      intro s f
      have h1 := lookupPast_commitStep_len s i f
      have h2 := ih (commitStep s i) f
      have h3 : commitFold s (i :: rest) = commitFold (commitStep s i) rest := by
        simp [commitFold]
      rw [h3]
      omega

/-- Committing at least one snapshot-new title changes the snapshot. -/
theorem commitFold_ne (past : Snapshot) (i : Item) (rest : List Item)
    (hnew : i.title ∉ lookupPast past i.feed_url) :
    commitFold past (i :: rest) ≠ past := by
  intro heq
  have h1 : commitFold past (i :: rest) =
      commitFold (commitAdd past i.feed_url i.title) rest := by
    simp [commitFold, commitStep, hnew]
  have h2 : (lookupPast (commitAdd past i.feed_url i.title) i.feed_url).length =
      (lookupPast past i.feed_url).length + 1 := by
    rw [lookupPast_commitAdd_self]
    simp
  have h3 := lookupPast_commitFold_len rest (commitAdd past i.feed_url i.title) i.feed_url
  rw [← h1, heq] at h3
  omega

/-! # Lemmas about the retry loop -/

/-- Unfolding: a successful attempt returns at once. -/
theorem sendFrom_ok (resp : Nat → Response) (rc left : Nat) (h : resp rc = .ok) :
    sendFrom resp rc left = ([], .success) := by
  rw [sendFrom, h]

/-- Unfolding: a non-429 HTTP failure raises at once, with no sleep. -/
theorem sendFrom_badStatus (resp : Nat → Response) (rc left : Nat)
    (h : resp rc = .badStatus) : sendFrom resp rc left = ([], .fatal) := by
  rw [sendFrom, h]

/-- Unfolding: a network exception raises at once, with no sleep. -/
theorem sendFrom_netErr (resp : Nat → Response) (rc left : Nat)
    (h : resp rc = .netErr) : sendFrom resp rc left = ([], .fatal) := by
  rw [sendFrom, h]

/-- Unfolding: a 429 with no retries left raises without sleeping. -/
theorem sendFrom_rate_exhausted (resp : Nat → Response) (rc : Nat)
    (hint : Option Nat) (h : resp rc = .rate hint) :
    sendFrom resp rc 0 = ([], .fatal) := by
  rw [sendFrom, h]

/-- Unfolding: a hinted 429 with retries left sleeps exactly the hint and
loops with the retry counter incremented. -/
theorem sendFrom_rate_step_some (resp : Nat → Response) (rc l w : Nat)
    (h : resp rc = .rate (some w)) :
    sendFrom resp rc (l + 1) =
      (w :: (sendFrom resp (rc + 1) l).1, (sendFrom resp (rc + 1) l).2) := by
  rw [sendFrom, h]

/-- Unfolding: a hintless 429 with retries left sleeps the doubling
baseline `60 * 2 ** retry_count` and loops with the counter incremented. -/
theorem sendFrom_rate_step_none (resp : Nat → Response) (rc l : Nat)
    (h : resp rc = .rate none) :
    sendFrom resp rc (l + 1) =
      (60 * 2 ^ rc :: (sendFrom resp (rc + 1) l).1, (sendFrom resp (rc + 1) l).2) := by
  rw [sendFrom, h]

/-- Each allowed retry produces at most one sleep. -/
theorem sendFrom_sleeps_le (resp : Nat → Response) :
    ∀ left rc : Nat, (sendFrom resp rc left).1.length ≤ left := by
  intro left
  induction left with
  | zero =>
      intro rc
      cases h : resp rc with
      | ok => simp [sendFrom_ok resp rc 0 h]
      | rate hint => simp [sendFrom_rate_exhausted resp rc hint h]
      | badStatus => simp [sendFrom_badStatus resp rc 0 h]
      | netErr => simp [sendFrom_netErr resp rc 0 h]
  | succ l ih =>
      intro rc
      cases h : resp rc with
      | ok => simp [sendFrom_ok resp rc (l + 1) h]
      | badStatus => simp [sendFrom_badStatus resp rc (l + 1) h]
      | netErr => simp [sendFrom_netErr resp rc (l + 1) h]
      | rate hint =>
          have h2 := ih (rc + 1)
          cases hint with
          | some w =>
              rw [sendFrom_rate_step_some resp rc l w h]
              simp
              omega
          | none =>
              rw [sendFrom_rate_step_none resp rc l h]
              simp
              omega

/-- An unbroken run of hintless 429s sleeps the doubling schedule and ends
in the `RuntimeError` once retries are exhausted. -/
theorem sendFrom_rate_all (resp : Nat → Response) (hall : ∀ j, resp j = .rate none) :
    ∀ left rc : Nat,
      sendFrom resp rc left = ((List.range left).map (fun j => 60 * 2 ^ (rc + j)), .fatal) := by
  intro left
  induction left with
  | zero => intro rc; simp [sendFrom, hall rc]
  | succ l ih =>
      intro rc
      have hr : (List.range (l + 1)).map (fun j => 60 * 2 ^ (rc + j)) =
          60 * 2 ^ rc :: (List.range l).map (fun j => 60 * 2 ^ (rc + 1 + j)) := by
        rw [List.range_succ_eq_map, List.map_cons, List.map_map]
        simp only [Nat.add_zero]
        congr 1
        apply List.map_congr_left
        intro j _
        simp only [Function.comp]
        have he : rc + (j + 1) = rc + 1 + j := by omega
        rw [he]
      rw [sendFrom_rate_step_none resp rc l (hall rc), ih (rc + 1), hr]

/-- If every attempt up to the retry budget is rate-limited, the send ends
in the raised `RuntimeError`. -/
theorem sendFrom_rate_fatal (resp : Nat → Response) :
    ∀ left rc : Nat, (∀ j, rc ≤ j → j ≤ rc + left → ∃ hh, resp j = .rate hh) →
      (sendFrom resp rc left).2 = .fatal := by
  intro left
  induction left with
  | zero =>
      intro rc h
      obtain ⟨hh, hr⟩ := h rc (Nat.le_refl rc) (by omega)
      rw [sendFrom_rate_exhausted resp rc hh hr]
  | succ l ih =>
      intro rc h
      obtain ⟨hh, hr⟩ := h rc (Nat.le_refl rc) (by omega)
      have hnext := ih (rc + 1) (fun j h1 h2 => h j (by omega) (by omega))
      cases hh with
      | some w => rw [sendFrom_rate_step_some resp rc l w hr]; exact hnext
      | none => rw [sendFrom_rate_step_none resp rc l hr]; exact hnext

/-- Splitting the retry loop after `k` rate-limited attempts: the first `k`
sleeps happen, then the loop continues at retry counter `k` with the
remaining budget. -/
theorem sendFrom_rate_split (resp : Nat → Response) :
    ∀ k rc left : Nat,
      (∀ j, rc ≤ j → j < rc + k → ∃ hh, resp j = .rate hh) → k ≤ left →
      ∃ pre : List Nat, pre.length = k ∧
        sendFrom resp rc left =
          (pre ++ (sendFrom resp (rc + k) (left - k)).1,
            (sendFrom resp (rc + k) (left - k)).2) := by
  intro k
  induction k with
  | zero =>
      intro rc left _ _
      exact ⟨[], rfl, by simp⟩
  | succ kk ih =>
      intro rc left h hk
      cases left with
      | zero => omega
      | succ l =>
          obtain ⟨hh, hr⟩ := h rc (Nat.le_refl rc) (by omega)
          obtain ⟨pre, hlen, heq⟩ :=
            ih (rc + 1) l (fun j h1 h2 => h j (by omega) (by omega)) (by omega)
          have e1 : rc + 1 + kk = rc + (kk + 1) := by omega
          have e2 : l - kk = l + 1 - (kk + 1) := by omega
          cases hh with
          | some w =>
              refine ⟨w :: pre, by simp [hlen], ?_⟩
              rw [sendFrom_rate_step_some resp rc l w hr, heq]
              rw [e1, e2]
              simp
          | none =>
              refine ⟨60 * 2 ^ rc :: pre, by simp [hlen], ?_⟩
              rw [sendFrom_rate_step_none resp rc l hr, heq]
              rw [e1, e2]
              simp

/-! # Claim theorems -/

/-- C3: if any delivery attempt fails fatally (the send loop reports
failure), the State Commit write is never invoked and the external
snapshot store is returned exactly as read, regardless of how many items
had already been delivered. -/
theorem claim_C3 (store past : Snapshot) (newItems : List Item)
    (groups : List (String × List Item)) (sendOk : Item → Bool)
    (h : (deliverRun sendOk groups).2 = false) :
    step3Embed store past newItems groups sendOk = (store, false) := by
  simp [step3Embed, h]

/-- C3 witness: 5 items in one channel, delivery fails after the first 2
succeed; the store is left byte-for-byte as read and no write is issued. -/
theorem claim_C3_witness :
    (deliverRun (fun i => decide (i.title = "A" ∨ i.title = "B"))
        [("chat", [⟨"f", "A", none, none, none, none, none⟩,
          ⟨"f", "B", none, none, none, none, none⟩,
          ⟨"f", "C", none, none, none, none, none⟩,
          ⟨"f", "D", none, none, none, none, none⟩,
          ⟨"f", "E", none, none, none, none, none⟩])]).2 = false ∧
    step3Embed [("f", ["X"])] [("f", ["X"])]
        [⟨"f", "A", none, none, none, none, none⟩]
        [("chat", [⟨"f", "A", none, none, none, none, none⟩,
          ⟨"f", "B", none, none, none, none, none⟩,
          ⟨"f", "C", none, none, none, none, none⟩,
          ⟨"f", "D", none, none, none, none, none⟩,
          ⟨"f", "E", none, none, none, none, none⟩])]
        (fun i => decide (i.title = "A" ∨ i.title = "B")) = ([("f", ["X"])], false) :=
  ⟨by decide, claim_C3 _ _ _ _ _ (by decide)⟩

/-- C4: whenever the computed snapshot update introduces no new titles
relative to the snapshot as read — the commit fold returns the snapshot
unchanged — the run issues no write call. -/
theorem claim_C4 (store past : Snapshot) (items : List Item) (maxI : Nat)
    (groups : List Item → List (String × List Item)) (sendOk : Item → Bool)
    (newItems : List Item)
    (hsel : select_new_items items past maxI = .ok newItems)
    (hnone : commitFold past newItems = past) :
    runSelectionAndCommit store past items maxI groups sendOk = .ok (store, false) := by
  unfold runSelectionAndCommit
  rw [hsel]
  cases newItems with
  | nil => simp
  | cons i rest =>
      exfalso
      exact commitFold_ne past i rest
        (select_new_items_not_past hsel i (List.mem_cons_self i rest)) hnone

/-- C4 witness: every fetched item is already recorded in the snapshot, so
the selection is empty, the update introduces nothing, and no write is
issued. -/
theorem claim_C4_witness :
    select_new_items [⟨"f", "X", none, none, none, none, none⟩]
        [("f", ["X"])] 10 = .ok [] ∧
    commitFold [("f", ["X"])] [] = [("f", ["X"])] ∧
    runSelectionAndCommit [("f", ["X"])] [("f", ["X"])]
        [⟨"f", "X", none, none, none, none, none⟩] 10
        (fun _ => []) (fun _ => true) = .ok ([("f", ["X"])], false) :=
  ⟨by decide, by decide,
    claim_C4 _ _ _ _ _ _ [] (by decide) (by decide)⟩

/-- C1: refuted on the code — the Selection Engine computes no fingerprint
and performs no intra-run deduplication.  Two batch items that resolve to
the same spec fingerprint (identical `id`) are both selected and hence
both delivered, and no selected item is tagged with any fingerprint. -/
theorem claim_C1_counterexample :
    fingerprintSpec ⟨"https://example.com/feed", "Item 1",
        some "https://example.com/a", some "same-id", none, none, none⟩ =
      fingerprintSpec ⟨"https://example.com/feed", "Item 1 duplicate",
        some "https://example.com/a", some "same-id", none, none, none⟩ ∧
    select_new_items
        [⟨"https://example.com/feed", "Item 1",
            some "https://example.com/a", some "same-id", none, none, none⟩,
          ⟨"https://example.com/feed", "Item 1 duplicate",
            some "https://example.com/a", some "same-id", none, none, none⟩]
        [] 10 =
      .ok [⟨"https://example.com/feed", "Item 1",
            some "https://example.com/a", some "same-id", none, none, none⟩,
          ⟨"https://example.com/feed", "Item 1 duplicate",
            some "https://example.com/a", some "same-id", none, none, none⟩] := by
  constructor
  · rfl
  · decide

/-- C2: refuted on the code — a feed group holding one dated and one
undated item makes the sort key comparison `datetime < int` raise
`TypeError`, so the Selection Engine does not return normally. -/
theorem claim_C2_counterexample :
    select_new_items
        [⟨"https://example.com/feed", "A", some "https://example.com/a",
            none, none, none, none⟩,
          ⟨"https://example.com/feed", "B", some "https://example.com/b",
            none, some 1700000000, none, none⟩]
        [] 10 =
      .error "TypeError: unsupported comparison between datetime.datetime and int" := by
  decide

/-- C5: a successful selection never exceeds `max_items`; with more than
`max_items` snapshot-new candidates it returns exactly `max_items`; and
once the running selection reaches the cap, the current feed's remaining
items are not scanned and the remaining feed groups are not processed
(the outer loop returns without touching them). -/
theorem claim_C5 (items items2 : List Item) (past past2 : Snapshot)
    (maxI maxI2 : Nat) (res res2 sorted sel sel2 its its2 : List Item)
    (k : String) (gs : List (String × List Item))
    (h : select_new_items items past maxI = .ok res)
    (hmore : maxI < items.countP (isNewB past))
    (h2 : select_new_items items2 past2 maxI2 = .ok res2)
    (hs : pySort its = .ok sorted)
    (hcap : maxI2 ≤ (scanGroup past2 maxI2 k sorted sel).length)
    (hsel2 : maxI2 ≤ sel2.length) :
    res.length = maxI ∧ res2.length ≤ maxI2 ∧
    scanGroup past2 maxI2 k its2 sel2 = sel2 ∧
    selectGo past2 maxI2 ((k, its) :: gs) sel =
      .ok (scanGroup past2 maxI2 k sorted sel) := by
  refine ⟨?_, ?_, scanGroup_stop past2 maxI2 k its2 sel2 hsel2, ?_⟩
  · rw [select_new_items_length h]
    omega
  · rw [select_new_items_length h2]
    omega
  · simp only [selectGo, hs]
    rw [if_pos hcap]

/-- C5 witness: 3 candidates, cap 2: exactly 2 selected; and with the cap
already reached, a later feed group that would raise in sorting is never
touched. -/
theorem claim_C5_witness :
    select_new_items [mkF "A", mkF "B", mkF "C"] [] 2 = .ok [mkF "A", mkF "B"] ∧
    ([mkF "A", mkF "B", mkF "C"].countP (isNewB []) = 3) ∧
    (([mkF "A", mkF "B"] : List Item).length = 2 ∧
      ([mkF "A", mkF "B"] : List Item).length ≤ 2 ∧
      scanGroup [] 2 "f" [mkF "C"] [mkF "A", mkF "B"] = [mkF "A", mkF "B"] ∧
      selectGo [] 2 [("f", [mkF "A"]), ("g", [mkG "M1", mkGdated "M2" 5])]
          [mkF "A", mkF "B"] =
        .ok (scanGroup [] 2 "f" [mkF "A"] [mkF "A", mkF "B"])) :=
  ⟨by decide, by decide,
    claim_C5 [mkF "A", mkF "B", mkF "C"] [mkF "A", mkF "B", mkF "C"] [] [] 2 2
      [mkF "A", mkF "B"] [mkF "A", mkF "B"] [mkF "A"] [mkF "A", mkF "B"]
      [mkF "A", mkF "B"] [mkF "A"] [mkF "C"] "f"
      [("g", [mkG "M1", mkGdated "M2" 5])]
      (by decide) (by decide) (by decide) (by decide) (by decide) (by decide)⟩

/-- C6: no item selected by a successful run carries a `(feed_url, title)`
pair present in the snapshot as read; and a single candidate whose title is
not in the snapshot for its feed is selected whenever the cap allows it. -/
theorem claim_C6 (items : List Item) (past : Snapshot) (maxI : Nat)
    (res : List Item) (y z : Item)
    (h : select_new_items items past maxI = .ok res) (hy : y ∈ res)
    (hz : z.title ∉ lookupPast past z.feed_url) (hm : 1 ≤ maxI) :
    y.title ∉ lookupPast past y.feed_url ∧
    select_new_items [z] past maxI = .ok [z] := by
  refine ⟨select_new_items_not_past h y hy, ?_⟩
  have hgroup : groupByFeed [z] = [(z.feed_url, [z])] := by
    simp [groupByFeed, addToGroups]
  unfold select_new_items
  rw [hgroup]
  have hsort : pySort [z] = .ok [z] := by
    cases hp : z.published with
    | none => simp [pySort, hp]
    | some t => simp [pySort, hp, sortByTs, insertSorted]
  simp only [selectGo, hsort]
  have h0 : ¬ (maxI ≤ ([] : List Item).length) := by
    simp
    omega
  have hscan : scanGroup past maxI z.feed_url [z] [] = [z] := by
    simp only [scanGroup]
    rw [if_neg h0, if_neg hz]
    simp [scanGroup]
  rw [hscan]
  by_cases hcap : maxI ≤ ([z] : List Item).length
  · rw [if_pos hcap]
  · rw [if_neg hcap]

/-- C6 witness: with Snapshot `{"feedA": ["X"]}`, the item titled `"X"`
from `feedA` is not selected while the item titled `"Y"` is. -/
theorem claim_C6_witness :
    select_new_items [mkFA "X", mkFA "Y"] [("feedA", ["X"])] 10 = .ok [mkFA "Y"] ∧
    ("Y" ∉ lookupPast [("feedA", ["X"])] "feedA") ∧
    ((mkFA "Y").title ∉ lookupPast [("feedA", ["X"])] (mkFA "Y").feed_url ∧
      select_new_items [mkFA "Y"] [("feedA", ["X"])] 10 = .ok [mkFA "Y"]) :=
  ⟨by decide, by decide,
    claim_C6 [mkFA "X", mkFA "Y"] [("feedA", ["X"])] 10 [mkFA "Y"]
      (mkFA "Y") (mkFA "Y")
      (by decide) (by decide) (by decide) (by decide)⟩

/-- C7: a hinted rate limit sleeps exactly the hint before the next
attempt; at most `max_retries` sleeps (retries) happen; exhausting the
budget on rate limits is a fatal failure; a hintless run doubles the sleep
(second unhinted sleep 120 after a first of 60); any non-rate-limit
failure raises at once with no sleep and no retry. -/
theorem claim_C7 (resp respAll respNone respBad : Nat → Response)
    (mr mr2 rc left left2 k w : Nat)
    (h1 : resp rc = .rate (some w))
    (hall : ∀ j, j ≤ mr → ∃ hh, respAll j = .rate hh)
    (hn : ∀ j, respNone j = .rate none)
    (hm2 : 2 ≤ mr2)
    (hbad : respBad k = .badStatus ∨ respBad k = .netErr) :
    sendFrom resp rc (left + 1) =
      (w :: (sendFrom resp (rc + 1) left).1, (sendFrom resp (rc + 1) left).2) ∧
    (send_message_with_backoff respAll mr).1.length ≤ mr ∧
    (send_message_with_backoff respAll mr).2 = .fatal ∧
    (send_message_with_backoff respNone mr2).1.take 2 = [60, 120] ∧
    sendFrom respBad k left2 = ([], .fatal) := by
  refine ⟨sendFrom_rate_step_some resp rc left w h1,
    sendFrom_sleeps_le respAll mr 0, ?_, ?_, ?_⟩
  · exact sendFrom_rate_fatal respAll mr 0 (fun j hj1 hj2 => hall j (by omega))
  · rw [send_message_with_backoff, sendFrom_rate_all respNone hn mr2 0]
    obtain ⟨m, rfl⟩ : ∃ m, mr2 = m + 2 := ⟨mr2 - 2, by omega⟩
    rw [← List.map_take, List.take_range]
    have hmin : min 2 (m + 2) = 2 := by omega
    rw [hmin]
    decide
  · rcases hbad with hb | hb
    · exact sendFrom_badStatus respBad k left2 hb
    · exact sendFrom_netErr respBad k left2 hb

/-- C7 witness: a hint of 30 sleeps exactly 30; an all-rate-limited run
with the default budget of 3 retries sleeps thrice and fails; a plain HTTP
error fails at once with no sleeps. -/
theorem claim_C7_witness :
    (sendFrom (fun _ => .rate (some 30)) 0 4 =
      (30 :: (sendFrom (fun _ => .rate (some 30)) 1 3).1,
        (sendFrom (fun _ => .rate (some 30)) 1 3).2) ∧
    (send_message_with_backoff (fun _ => .rate none) 3).1.length ≤ 3 ∧
    (send_message_with_backoff (fun _ => .rate none) 3).2 = .fatal ∧
    (send_message_with_backoff (fun _ => .rate none) 2).1.take 2 = [60, 120] ∧
    sendFrom (fun _ => .badStatus) 0 5 = ([], .fatal)) :=
  claim_C7 (fun _ => .rate (some 30)) (fun _ => .rate none) (fun _ => .rate none)
    (fun _ => .badStatus) 3 2 0 3 5 0 30
    rfl (fun j _ => ⟨none, rfl⟩) (fun j => rfl) (by decide) (Or.inl rfl)

/-- C8: the age filter keeps an item iff its `published` is absent or at
least `now - max_age_days`; the boundary instant itself is kept, one second
older is dropped, and an undated item is always kept; `filter_recent_items`
filters by exactly this test. -/
theorem claim_C8 (item : Item) (now days : Int) :
    (is_recent item now days = true ↔
      item.published = none ∨
        ∃ t, item.published = some t ∧ now - days * secondsPerDay ≤ t) ∧
    is_recent ⟨"f", "t", none, none, some (now - days * secondsPerDay),
      none, none⟩ now days = true ∧
    is_recent ⟨"f", "t", none, none, some (now - days * secondsPerDay - 1),
      none, none⟩ now days = false ∧
    is_recent ⟨"f", "t", none, none, none, none, none⟩ now days = true ∧
    filter_recent_items [item] now days =
      if is_recent item now days then [item] else [] := by
  refine ⟨?_, by simp [is_recent], ?_, by simp [is_recent], ?_⟩
  · cases hp : item.published with
    | none => simp [is_recent, hp]
    | some t => simp [is_recent, hp]
  · simp only [is_recent, decide_eq_false_iff_not]
    omega
  · by_cases hr : is_recent item now days <;>
      simp [filter_recent_items, List.filter, hr]

/-- C10: a hintless rate-limited attempt at retry counter `k` (after `k`
earlier rate-limited retries, hinted or not) sleeps exactly `60 * 2 ** k`
seconds — the unstated baseline is 60 — and under the default
`max_retries = 3` an all-hintless run sleeps 60, 120, 240 and then fails. -/
theorem claim_C10 (resp : Nat → Response) (mr k : Nat)
    (hpre : ∀ j, j < k → ∃ hh, resp j = .rate hh)
    (hk : resp k = .rate none) (hlt : k < mr) :
    (send_message_with_backoff resp mr).1[k]? = some (60 * 2 ^ k) ∧
    send_message_with_backoff (fun _ => .rate none) 3 = ([60, 120, 240], .fatal) := by
  constructor
  · obtain ⟨pre, hlen, heq⟩ := sendFrom_rate_split resp k 0 mr
      (fun j h1 h2 => hpre j (by omega)) (by omega)
    rw [send_message_with_backoff, heq]
    have hple : pre.length ≤ k := by omega
    rw [List.getElem?_append_right hple]
    have h0k : 0 + k = k := by omega
    rw [h0k]
    obtain ⟨m, hm⟩ : ∃ m, mr - k = m + 1 := ⟨mr - k - 1, by omega⟩
    rw [hm, sendFrom_rate_step_none resp k m hk]
    simp [hlen]
  · decide

/-- C10 witness: two rate-limited retries already made, the third attempt's
hintless 429 sleeps `60 * 2 ** 2 = 240`. -/
theorem claim_C10_witness :
    (send_message_with_backoff (fun _ => .rate none) 3).1[2]? = some (60 * 2 ^ 2) ∧
    send_message_with_backoff (fun _ => .rate none) 3 = ([60, 120, 240], .fatal) :=
  claim_C10 (fun _ => .rate none) 3 2 (fun j _ => ⟨none, rfl⟩) rfl (by decide)

/-- C9: the rule filter passes an item iff (its allow list is absent or
empty, or some allow keyword is a case-insensitive substring of the
lowercased `title + " " + summary` text) and no deny keyword is a
substring of that text; an item matching both an allow and a deny keyword
is excluded; an item with no `rules` passes; `apply_rules` filters by
exactly this test. -/
theorem claim_C9 (i j kitem : Item) (al dl : List String) (a d : String)
    (hj : j.rules = none)
    (hk : kitem.rules = some ⟨some al, some dl⟩)
    (_ha : a ∈ al) (_hamatch : lowerStr a.data <:+: ruleText kitem)
    (hd : d ∈ dl) (hdmatch : lowerStr d.data <:+: ruleText kitem) :
    (passesRules i = true ↔
      (((allowToks i).getD [] = [] ∨
          ∃ tok ∈ (allowToks i).getD [], lowerStr tok.data <:+: ruleText i) ∧
        ∀ tok ∈ (denyToks i).getD [], ¬ lowerStr tok.data <:+: ruleText i)) ∧
    passesRules kitem = false ∧
    passesRules j = true ∧
    apply_rules [i] = if passesRules i then [i] else [] := by
  refine ⟨?_, ?_, ?_, ?_⟩
  · simp only [passesRules, Bool.and_eq_true]
    cases hA : allowToks i with
    | none =>
        cases hD : denyToks i with
        | none => simp [hA, hD, tokMatch]
        | some dt => simp [hA, hD, tokMatch, List.any_eq_true]
    | some toksA =>
        cases toksA with
        | nil =>
            cases hD : denyToks i with
            | none => simp [hA, hD, tokMatch]
            | some dt => simp [hA, hD, tokMatch, List.any_eq_true]
        | cons t twords =>
            cases hD : denyToks i with
            | none => simp [hA, hD, tokMatch, List.any_eq_true]
            | some dt => simp [hA, hD, tokMatch, List.any_eq_true]
  · have hAk : allowToks kitem = some al := by
      simp [allowToks, hk]
    have hDk : denyToks kitem = some dl := by
      simp [denyToks, hk]
    have hany : dl.any (fun tok => tokMatch (ruleText kitem) tok) = true :=
      List.any_eq_true.2 ⟨d, hd, by simp [tokMatch, hdmatch]⟩
    simp [passesRules, hAk, hDk, hany]
  · simp [passesRules, allowToks, denyToks, hj]
  · cases hp : passesRules i <;> simp [apply_rules, List.filter_cons, hp]

/-- C9 witness: an item matching both `"ios"` (allow) and `"windows"`
(deny) is excluded; an item with no rules passes; `apply_rules` keeps an
item passing its allow list. -/
theorem claim_C9_witness :
    passesRules itemAllowDeny = false ∧ passesRules (mkF "J") = true ∧
    apply_rules [itemAllowOnly] =
      if passesRules itemAllowOnly then [itemAllowOnly] else [] :=
  ⟨(claim_C9 itemAllowOnly (mkF "J") itemAllowDeny ["ios"] ["windows"] "ios" "windows"
      rfl rfl (by decide) (by decide) (by decide) (by decide)).2.1,
    (claim_C9 itemAllowOnly (mkF "J") itemAllowDeny ["ios"] ["windows"] "ios" "windows"
      rfl rfl (by decide) (by decide) (by decide) (by decide)).2.2.1,
    (claim_C9 itemAllowOnly (mkF "J") itemAllowDeny ["ios"] ["windows"] "ios" "windows"
      rfl rfl (by decide) (by decide) (by decide) (by decide)).2.2.2⟩

end Newsmon

